import Mathlib

/-!
Verification of the neural_sp core components against their source:
the training-step executor (src/utils/training/updater.py, class Updater),
the RNN language model (src/models/pytorch_v3/lm/rnnlm.py, class RNNLM),
and the character-level evaluator (src/neural_sp/evaluators/character.py).

The numeric network (embedding, recurrent cells, output projection,
log-softmax) works on floating-point tensors and is abstracted by
oracle functions: a per-position cross-entropy value for the training
loss, and a per-example greedy next-token function for decoding.  All
control flow - batch sorting and padding, sentinel insertion, the
decode loop with its EOS flags, length counters, early break and final
truncation, the updater's backend dispatch, exception containment and
non-finite-loss guard, and the evaluator's word-statistics condition -
is translated directly from the Python source.
-/

namespace NeuralSp

/-! ### Training-step executor (src/utils/training/updater.py) -/

/-- Loss values as seen by the updater: a finite rational, or one of the
two infinities that the guard `if loss_val == INF or loss_val == -INF`
tests for.  NaN is not modelled separately, matching the source, which
has no NaN case. -/
inductive LossV where
  | fin : ℚ → LossV
  | pinf : LossV
  | ninf : LossV
deriving DecidableEq

/-- The two backends the source dispatches on (`self.backend == 'pytorch'`
or `'chainer'`).  Any other string falls through both branches in the
source and is outside every claim. -/
inductive Backend where
  | pytorch : Backend
  | chainer : Backend
deriving DecidableEq

/-- Abstract model handed to `Updater.__call__`.  `params` and `grads`
are the mutable tensors; `forward` is `model(batch, is_eval=flag)` and
may raise (RuntimeError is `Except.error ()`); `backward` is the
gradient accumulation performed by `loss.backward()`; `clip` is
`clip_grad_norm`; `optStep` is `optimizer.step()` / `optimizer.update()`
producing the new parameters; `zeroG` is the cleared-gradient value
written by `zero_grad()` / `cleargrads()`. -/
structure UpModel (P G B : Type) where
  params : P
  grads : G
  forward : P → B → Bool → Except Unit LossV
  backward : G → P → B → Except Unit G
  clip : G → G
  optStep : P → G → Except Unit P
  zeroG : G

/-- The body of the `try:` block of `Updater.__call__`, translated branch
by branch from the source.  Note the chainer backend really does run
`cleargrads`, `forward`, `backward` and `optimizer.update()` under
`if is_eval:` and calls `model(..., is_eval=True)` in its `else:`
branch - the two branches are swapped relative to the pytorch backend.
`loss.detach()` / `loss.unchain_backward()` and `torch.cuda.empty_cache()`
do not change any modelled value and are omitted. -/
def updaterTry {P G B : Type} (clipGradNorm : ℚ) (backend : Backend)
    (model : UpModel P G B) (batch : B) (isEval : Bool) :
    Except Unit (UpModel P G B × LossV) :=
  match backend with
  | Backend.pytorch =>
    if isEval then do
      let loss ← model.forward model.params batch true
      pure (model, loss)
    else do
      let m1 : UpModel P G B := { model with grads := model.zeroG }
      let loss ← m1.forward m1.params batch false
      let g ← m1.backward m1.grads m1.params batch
      let g1 := if 0 < clipGradNorm then m1.clip g else g
      let p1 ← m1.optStep m1.params g1
      pure ({ m1 with params := p1, grads := g1 }, loss)
  | Backend.chainer =>
    if isEval then do
      let m1 : UpModel P G B := { model with grads := model.zeroG }
      let loss ← m1.forward m1.params batch false
      let g ← m1.backward m1.grads m1.params batch
      let p1 ← m1.optStep m1.params g
      pure ({ m1 with params := p1, grads := g }, loss)
    else do
      let loss ← model.forward model.params batch true
      pure (model, loss)

/-- The non-finite guard `if loss_val == INF or loss_val == -INF:
loss_val = 0`. -/
def infGuard : LossV → LossV
  | LossV.pinf => LossV.fin 0
  | LossV.ninf => LossV.fin 0
  | v => v

/-- `Updater.__call__`: run the try body; on RuntimeError log, clear the
gradients (`zero_grad` for pytorch, `cleargrads` for chainer - both
write `zeroG`) and keep the initial `loss_val = 0.`; then apply the
non-finite guard.  The only in-place mutations the source can perform
before an exception escapes the try block are the gradient clearing
(overwritten again by the handler) and the atomic optimizer step, so
applying the handler to the pre-call model is faithful. -/
def updaterCall {P G B : Type} (clipGradNorm : ℚ) (backend : Backend)
    (model : UpModel P G B) (batch : B) (isEval : Bool) :
    UpModel P G B × LossV :=
  match updaterTry clipGradNorm backend model batch isEval with
  | Except.ok (m2, loss) => (m2, infGuard loss)
  | Except.error _ => ({ model with grads := model.zeroG }, infGuard (LossV.fin 0))

/-- Concrete model for evaluating the updater: integer parameter and
gradient cells, a forward pass returning loss 1, backward producing
gradient 7, and an optimizer step that adds the gradient to the
parameters. -/
def mUpd : UpModel Int Int Unit :=
  { params := 0
    grads := 0
    forward := fun _ _ _ => Except.ok (LossV.fin 1)
    backward := fun _ _ _ => Except.ok 7
    clip := fun g => g
    optStep := fun p g => Except.ok (p + g)
    zeroG := 0 }

/-- Concrete model whose forward pass raises a RuntimeError, as the
spec's test scenario prescribes ("simulate via a model stub that raises
on forward"). -/
def mRaise : UpModel Int Int Unit :=
  { params := 3
    grads := 11
    forward := fun _ _ _ => Except.error ()
    backward := fun _ _ _ => Except.ok 7
    clip := fun g => g
    optStep := fun p g => Except.ok (p + g)
    zeroG := 0 }

/-! ### RNNLM construction (src/models/pytorch_v3/lm/rnnlm.py, RNNLM.__init__) -/

/-- Construction-time errors of `RNNLM.__init__`.  `valueErrorTieDims`
stands for the `ValueError('When using the tied flag, num_units must be
equal to embedding_dim')` statement; in the source that statement sits
after `raise NotImplementedError` inside the `if tie_weights:` block and
is unreachable. -/
inductive InitError where
  | valueErrorRnnType
  | notImplementedTieWeights
  | valueErrorTieDims
deriving DecidableEq

/-- Constructor arguments of `RNNLM.__init__` that the validation logic
reads. -/
structure RNNLMConfig where
  embedding_dim : Nat
  rnn_type : String
  bidirectional : Bool
  num_units : Nat
  num_layers : Nat
  num_classes : Nat
  tie_weights : Bool
deriving DecidableEq

/-- The attributes `RNNLM.__init__` assigns on success.  `num_classes`
is the constructor argument plus one (the added sentinel class) and
`sos` and `eos` are both the original `num_classes`. -/
structure RNNLMState where
  model_type : String
  num_classes : Nat
  sos : Nat
  eos : Nat
  num_directions : Nat
  num_units : Nat
  embedding_dim : Nat
deriving DecidableEq

/-- The observable behaviour of `RNNLM.__init__`: the `elif` chain over
`rnn_type` raises ValueError for an unknown cell type; afterwards
`if tie_weights: raise NotImplementedError` fires unconditionally when
weight tying is requested - the dimension check below that raise is dead
code and can produce no error.  Weight initialization only writes
numeric tensors and is not modelled. -/
def rnnlmInit (c : RNNLMConfig) : Except InitError RNNLMState :=
  if c.rnn_type = "lstm" ∨ c.rnn_type = "gru" ∨ c.rnn_type = "rnn" then
    if c.tie_weights then
      Except.error InitError.notImplementedTieWeights
    else
      Except.ok
        { model_type := "rnnlm"
          num_classes := c.num_classes + 1
          sos := c.num_classes
          eos := c.num_classes
          num_directions := if c.bidirectional then 2 else 1
          num_units := c.num_units
          embedding_dim := c.embedding_dim }
  else
    Except.error InitError.valueErrorRnnType

deriving instance DecidableEq for Except

/-- Configuration with weight tying requested and mismatched dimensions
(num_units 4, embedding_dim 8). -/
def cfgC7 : RNNLMConfig :=
  { embedding_dim := 8
    rnn_type := "lstm"
    bidirectional := false
    num_units := 4
    num_layers := 1
    num_classes := 5
    tie_weights := true }

/-! ### Batch preparation and training loss (RNNLM.forward, lines 149-213) -/

/-- Index-value pairing, mirroring Python's pairing of `range(0, len(ys), 1)`
with the list entries (and `enumerate` in the loss sum). -/
def idxFrom {α : Type} (n : Nat) : List α → List (Nat × α)
  | [] => []
  | a :: l => (n, a) :: idxFrom (n + 1) l

/-- The ordering realised by `sorted(range(0, len(ys), 1),
key=lambda i: len(ys[i]), reverse=True)` on index-sequence pairs:
strictly longer sequences first, and among equal lengths the original
index order (Python's `sorted` is stable, also with `reverse=True`). -/
def permRel (p q : Nat × List Nat) : Prop :=
  q.2.length < p.2.length ∨ (p.2.length = q.2.length ∧ p.1 ≤ q.1)

instance : DecidableRel permRel := fun p q => by
  unfold permRel
  exact inferInstance

instance : IsTrans (Nat × List Nat) permRel := by
  refine ⟨fun a b c hab hbc => ?_⟩
  rcases hab with h1 | ⟨h1, h1i⟩ <;> rcases hbc with h2 | ⟨h2, h2i⟩ <;>
    unfold permRel <;> omega

instance : IsTotal (Nat × List Nat) permRel := by
  refine ⟨fun a b => ?_⟩
  unfold permRel
  omega

/-- The sorted batch: each sequence paired with its original index, in
descending length order with ties in original order.  A list of
distinct-index pairs that is a permutation of `idxFrom 0 ys` and
pairwise `permRel`-ordered is unique, so insertion sort by `permRel`
yields exactly the order Python's stable `sorted(..., reverse=True)`
produces. -/
def sortedEnum (ys : List (List Nat)) : List (Nat × List Nat) :=
  List.insertionSort permRel (idxFrom 0 ys)

/-- The permutation `perm_idx` returned alongside the batch. -/
def perm_idx (ys : List (List Nat)) : List Nat :=
  (sortedEnum ys).map Prod.fst

/-- The reordered sequences `ys = [ys[i] for i in perm_idx]`. -/
def ysSorted (ys : List (List Nat)) : List (List Nat) :=
  (sortedEnum ys).map Prod.snd

/-- True lengths `y_lens = [len(y) + 1 for y in ys]` (the appended
sentinel is counted). -/
def y_lens (ys : List (List Nat)) : List Nat :=
  (ysSorted ys).map (fun y => y.length + 1)

/-- Modelled from the spec: `pad_list` (models/pytorch_v3/utils.py, a
repository file not included under src/) right-pads every sequence of
the batch with the pad value to the longest sequence length, producing
the rectangular (B, L_max) tensor the spec describes. -/
def pad_list {α : Type} (xs : List (List α)) (padv : α) : List (List α) :=
  let lm := (xs.map List.length).foldr max 0
  xs.map (fun x => x ++ List.replicate (lm - x.length) padv)

/-- `ys_in`: sentinel-prefixed sequences (`[sos] + seq`), padded with the
EOS id (`pad_list(ys_in, self.eos)`). -/
def ys_in_list (sos eos : Nat) (ys : List (List Nat)) : List (List Nat) :=
  pad_list ((ysSorted ys).map (fun y => sos :: y)) eos

/-- `ys_out`: sentinel-suffixed sequences (`seq + [eos]`), padded with the
ignore marker `-1` (`pad_list(ys_out, -1)`); entries are integers so the
marker is distinguishable from every token id. -/
def ys_out_list (eos : Nat) (ys : List (List Nat)) : List (List Int) :=
  pad_list ((ysSorted ys).map
    (fun y => y.map Int.ofNat ++ [Int.ofNat eos])) (-1)

/-- The padded width `L_max = max(len(y) + 1)`, i.e. `ys_out.size(1)`. -/
def l_max (ys : List (List Nat)) : Nat :=
  (y_lens ys).foldr max 0

/-- The value of `F.cross_entropy(input=logits.view(-1, C),
target=ys_out.view(-1), ignore_index=-1, size_average=False)`: the sum
of the per-position cross-entropy over every (batch, time) position
whose target is not the ignore marker `-1`.  The numeric value
contributed by position (b, t) - a function of the logits, hence of the
parameters and of `ys_in` - is abstracted by the oracle `ce b t`. -/
def ceSum (ce : Nat → Nat → ℚ) (ysOut : List (List Int)) : ℚ :=
  ((idxFrom 0 ysOut).map (fun br =>
    ((idxFrom 0 br.2).map
      (fun tv => if tv.2 = -1 then 0 else ce br.1 tv.1)).sum)).sum

/-- The scalar returned by `RNNLM.forward`: the masked cross-entropy sum
divided by `ys_out.size(0) * ys_out.size(1)`, the padded batch extent.
The embedding, packed recurrent pass and output projection determine
only the logits, which the `ce` oracle abstracts. -/
def trainingLoss (ce : Nat → Nat → ℚ) (eos : Nat) (ys : List (List Nat)) : ℚ :=
  ceSum ce (ys_out_list eos ys) /
    (((ys_out_list eos ys).length : ℚ) * ((l_max ys : ℚ)))

/-! ### Greedy decoding (RNNLM.decode, lines 249-315) -/

/-- Abstract greedy stepper for `decode`: `s0` is the recurrent state the
framework supplies for `hx=None`; `next s y` performs one embedding,
recurrent and projection step on one example and returns the new state
together with `torch.max(logits, dim=1)[1]`, the arg-max token.  The
batched tensor operations of the source act on each batch row
independently, so a per-example stepper is an equivalent presentation. -/
structure DecModel (σ : Type) where
  s0 : σ
  next : σ → Nat → σ × Nat
  eos : Nat

/-- Per-example decode bookkeeping: recurrent state, current input token
`y_in[b]`, the chosen tokens recorded for this row of `_best_hyps`, the
flag `eos_flag[b]` and the counter `y_lens[b]`. -/
structure DecEx (σ : Type) where
  h : σ
  cur : Nat
  row : List Nat
  flag : Bool
  len : Nat

/-- One iteration of the decode loop body for one example: advance the
stepper, record the chosen token unconditionally, then - only while the
flag was still clear - raise the flag on EOS and increment the length
counter (the increment also runs on the EOS step itself, matching the
source, where `y_lens[b] += 1` follows the flag update inside
`if not eos_flag[b]:`). -/
def stepEx {σ : Type} (m : DecModel σ) (e : DecEx σ) : DecEx σ :=
  let p := m.next e.h e.cur
  { h := p.1
    cur := p.2
    row := e.row ++ [p.2]
    flag := e.flag || (p.2 == m.eos)
    len := if e.flag then e.len else e.len + 1 }

/-- Initial per-example state: `h = None` (the stepper's own start
state), input `start_tokens[b]`, no recorded tokens, `eos_flag[b] =
False` and `y_lens[b] = 1`. -/
def initEx {σ : Type} (m : DecModel σ) (y : Nat) : DecEx σ :=
  { h := m.s0, cur := y, row := [], flag := false, len := 1 }

/-- The loop `for t in range(max_decode_len)` with the early exit
`if sum(eos_flag) == batch_size: break` checked after each full batch
step. -/
def decodeLoop {σ : Type} (m : DecModel σ) : Nat → List (DecEx σ) → List (DecEx σ)
  | 0, es => es
  | n + 1, es =>
    let es2 := es.map (stepEx m)
    if es2.all (fun e => e.flag) then es2 else decodeLoop m n es2

/-- The number of loop iterations `decodeLoop` actually executes before
the early break (or fuel exhaustion). -/
def stepsUsedAux {σ : Type} (m : DecModel σ) : Nat → List (DecEx σ) → Nat
  | 0, _ => 0
  | n + 1, es =>
    let es2 := es.map (stepEx m)
    if es2.all (fun e => e.flag) then 1 else 1 + stepsUsedAux m n es2

/-- Iterations executed by `decode` on this batch. -/
def stepsUsed {σ : Type} (m : DecModel σ) (startTokens : List Nat)
    (maxDecodeLen : Nat) : Nat :=
  stepsUsedAux m maxDecodeLen (startTokens.map (initEx m))

/-- `RNNLM.decode`: run the loop from the start tokens, then return
`[_best_hyps[b, :y_lens[b]] for b in range(batch_size)]` - each row of
the concatenated token matrix truncated to its recorded length
(`List.take` clamps exactly as the numpy slice does).  The source
requires `max_decode_len >= 1`: with zero iterations `torch.cat([])`
raises, so the theorems below assume `1 ≤ maxDecodeLen`. -/
def decode {σ : Type} (m : DecModel σ) (startTokens : List Nat)
    (maxDecodeLen : Nat) : List (List Nat) :=
  let es := decodeLoop m maxDecodeLen (startTokens.map (initEx m))
  es.map (fun e => e.row.take e.len)

/-- The greedy rollout: the chosen tokens an example starting from state
`s` and input token `y` produces over `n` steps. -/
def rollTok {σ : Type} (m : DecModel σ) : σ → Nat → Nat → List Nat
  | _, _, 0 => []
  | s, y, n + 1 =>
    let p := m.next s y
    p.2 :: rollTok m p.1 p.2 n

/-- State and current token after `n` rollout steps. -/
def rollSt {σ : Type} (m : DecModel σ) : σ → Nat → Nat → σ × Nat
  | s, y, 0 => (s, y)
  | s, y, n + 1 =>
    let p := m.next s y
    rollSt m p.1 p.2 n

/-- Number of tokens counted by `y_lens[b]` beyond its initial 1 after
processing a token list: one per step up to and including the first EOS,
then no more. -/
def takenLen (eos : Nat) : List Nat → Nat
  | [] => 0
  | y :: ys => if y == eos then 1 else 1 + takenLen eos ys

/-- Python runtime values, used to state what the `return` statement of
`decode` actually hands back (a bare list, not a tuple). -/
inductive PyVal where
  | pynat : Nat → PyVal
  | pylist : List PyVal → PyVal
  | pytuple : List PyVal → PyVal

/-- The value of `return best_hyps` at the end of `RNNLM.decode`: a
Python list of per-example token lists. -/
def decodeReturnValue {σ : Type} (m : DecModel σ) (startTokens : List Nat)
    (maxDecodeLen : Nat) : PyVal :=
  PyVal.pylist ((decode m startTokens maxDecodeLen).map
    (fun h => PyVal.pylist (h.map PyVal.pynat)))

/-- Whether a Python value is a 2-tuple, as a pair of results would be. -/
def isPairShape : PyVal → Bool
  | PyVal.pytuple l => l.length == 2
  | _ => false

/-- Stub stepper with EOS id 5: after input token 9 it emits EOS, after
any other token it emits 0.  Example 0 starting from 9 reaches EOS at
step 1; example 1 starting from 7 never emits EOS. -/
def mC2 : DecModel Unit :=
  { s0 := ()
    next := fun _ cur => ((), if cur = 9 then 5 else 0)
    eos := 5 }

/-- The spec's stub model: always outputs id 5, the EOS, at every step. -/
def mEos : DecModel Unit :=
  { s0 := ()
    next := fun _ _ => ((), 5)
    eos := 5 }

/-! ### Character evaluator (src/neural_sp/evaluators/character.py, eval_char) -/

/-- Substring test at the head of a list. -/
def beginsWith : List Char → List Char → Bool
  | [], _ => true
  | _ :: _, [] => false
  | a :: as, b :: bs => a = b && beginsWith as bs

/-- Substring containment over character lists. -/
def containsSub (needle : List Char) : List Char → Bool
  | [] => beginsWith needle []
  | c :: cs => beginsWith needle (c :: cs) || containsSub needle cs

/-- Python's `needle in hay` on strings: substring containment. -/
def pyIn (needle hay : String) : Bool :=
  containsSub needle.toList hay.toList

/-- The exception class raised when an unbound name is referenced. -/
inductive PyExcept where
  | nameError
deriving DecidableEq

def charLabel : String := "character"

def nowbLabel : String := "nowb"

/-- The word-statistics condition of eval_char,
`('character' in dataset.label_type and 'nowb' not in dataset.label_type)
or (task_index > 0 and dataset.label_type_sub == 'character')`, with
Python's short-circuit `or`: the right disjunct is only evaluated when
the left one is false, and referencing `task_index` raises NameError if
the name is unbound (`none`). -/
def wordCondEval (label_type label_type_sub : String)
    (task_index : Option Int) : Except PyExcept Bool :=
  if pyIn charLabel label_type && !(pyIn nowbLabel label_type) then
    Except.ok true
  else
    match task_index with
    | none => Except.error PyExcept.nameError
    | some k => Except.ok (decide (0 < k) && (label_type_sub == charLabel))

/-- The binding of `task_index` inside `eval_char`: the only assignment,
`task_index = 0`, is commented out in the source, so the name is
unbound. -/
def taskIndexVar : Option Int := none

/-- The word-statistics condition exactly as `eval_char` evaluates it,
with its unbound `task_index`. -/
def evalCharWordCond (label_type label_type_sub : String) :
    Except PyExcept Bool :=
  wordCondEval label_type label_type_sub taskIndexVar

/-! ### Lemmas about the decode loop -/

theorem map_iterate {α : Type} (f : α → α) :
    ∀ (n : Nat) (l : List α), (List.map f)^[n] l = l.map f^[n]
  | 0, l => by simp
  | n + 1, l => by
    rw [Function.iterate_succ_apply, map_iterate f n, List.map_map,
      Function.iterate_succ, Function.comp_def]

theorem decodeLoop_eq {σ : Type} (m : DecModel σ) :
    ∀ (fuel : Nat) (es : List (DecEx σ)),
    decodeLoop m fuel es = (List.map (stepEx m))^[stepsUsedAux m fuel es] es
  | 0, _ => rfl
  | fuel + 1, es => by
    simp only [decodeLoop, stepsUsedAux]
    by_cases h : (es.map (stepEx m)).all (fun e => e.flag) = true
    · simp [h]
    · simp only [h, if_false, Bool.false_eq_true]
      rw [decodeLoop_eq m fuel, Nat.add_comm 1, Function.iterate_succ_apply]

theorem stepsUsedAux_le {σ : Type} (m : DecModel σ) :
    ∀ (fuel : Nat) (es : List (DecEx σ)), stepsUsedAux m fuel es ≤ fuel
  | 0, _ => Nat.le_refl 0
  | fuel + 1, es => by
    simp only [stepsUsedAux]
    by_cases h : (es.map (stepEx m)).all (fun e => e.flag) = true
    · simp [h]
    · simp only [h, if_false, Bool.false_eq_true]
      have := stepsUsedAux_le m fuel (es.map (stepEx m))
      omega

theorem stepsUsedAux_pos {σ : Type} (m : DecModel σ) (fuel : Nat)
    (es : List (DecEx σ)) (hf : 1 ≤ fuel) : 1 ≤ stepsUsedAux m fuel es := by
  cases fuel with
  | zero => omega
  | succ n =>
    simp only [stepsUsedAux]
    by_cases h : (es.map (stepEx m)).all (fun e => e.flag) = true
    · simp [h]
    · simp only [h, if_false, Bool.false_eq_true]
      omega

theorem decodeLoop_all_flag {σ : Type} (m : DecModel σ) :
    ∀ (fuel : Nat) (es : List (DecEx σ)),
    stepsUsedAux m fuel es < fuel →
    (decodeLoop m fuel es).all (fun e => e.flag) = true
  | 0, _, h => absurd h (by simp)
  | fuel + 1, es, h => by
    rw [decodeLoop]
    by_cases hall : (es.map (stepEx m)).all (fun e => e.flag) = true
    · simp [hall]
    · simp only [hall, if_false, Bool.false_eq_true]
      apply decodeLoop_all_flag m fuel
      simp only [stepsUsedAux, hall, if_false, Bool.false_eq_true] at h
      omega

theorem stepEx_iterate {σ : Type} (m : DecModel σ) :
    ∀ (n : Nat) (s : σ) (y : Nat) (row : List Nat) (flag : Bool) (len : Nat),
    (stepEx m)^[n] ⟨s, y, row, flag, len⟩ =
      ⟨(rollSt m s y n).1, (rollSt m s y n).2, row ++ rollTok m s y n,
       flag || (rollTok m s y n).any (fun z => z == m.eos),
       if flag then len else len + takenLen m.eos (rollTok m s y n)⟩
  | 0, s, y, row, flag, len => by
    simp [rollSt, rollTok, takenLen]
  | n + 1, s, y, row, flag, len => by
    rw [Function.iterate_succ_apply]
    have hstep : stepEx m ⟨s, y, row, flag, len⟩ =
        ⟨(m.next s y).1, (m.next s y).2, row ++ [(m.next s y).2],
         flag || ((m.next s y).2 == m.eos), if flag then len else len + 1⟩ := rfl
    rw [hstep, stepEx_iterate m n]
    have hst : rollSt m s y (n + 1) = rollSt m (m.next s y).1 (m.next s y).2 n := rfl
    have htk : rollTok m s y (n + 1) =
        (m.next s y).2 :: rollTok m (m.next s y).1 (m.next s y).2 n := rfl
    rw [hst, htk]
    simp only [DecEx.mk.injEq]
    refine ⟨trivial, trivial, by simp, by simp [List.any_cons, Bool.or_assoc], ?_⟩
    cases flag with
    | true => simp
    | false =>
      cases hp : ((m.next s y).2 == m.eos) with
      | true => simp [takenLen, hp]
      | false =>
        simp only [Bool.false_or, hp, if_false, Bool.false_eq_true, takenLen]
        omega

theorem rollTok_length {σ : Type} (m : DecModel σ) :
    ∀ (n : Nat) (s : σ) (y : Nat), (rollTok m s y n).length = n
  | 0, _, _ => rfl
  | n + 1, s, y => by
    simp [rollTok, rollTok_length m n]

theorem rollTok_take {σ : Type} (m : DecModel σ) :
    ∀ (a b : Nat) (s : σ) (y : Nat), a ≤ b →
    (rollTok m s y b).take a = rollTok m s y a
  | 0, b, s, y, _ => by simp [rollTok]
  | a + 1, b + 1, s, y, h => by
    simp only [rollTok]
    rw [List.take_succ_cons, rollTok_take m a b _ _ (by omega)]

theorem takenLen_le (e : Nat) : ∀ r : List Nat, takenLen e r ≤ r.length
  | [] => Nat.le_refl 0
  | y :: r => by
    simp only [takenLen, List.length_cons]
    by_cases h : (y == e) = true
    · simp [h]
    · simp only [h, if_false, Bool.false_eq_true]
      have := takenLen_le e r
      omega

theorem takenLen_of_not_any (e : Nat) :
    ∀ r : List Nat, r.any (fun z => z == e) = false → takenLen e r = r.length
  | [], _ => rfl
  | y :: r, h => by
    simp only [List.any_cons, Bool.or_eq_false_iff] at h
    simp only [takenLen, h.1, if_false, Bool.false_eq_true, List.length_cons]
    rw [takenLen_of_not_any e r h.2]
    omega

theorem any_take_false {α : Type} (p : α → Bool) (r : List α) (k : Nat)
    (h : r.any p = false) : (r.take k).any p = false := by
  rw [List.any_eq_false] at h ⊢
  intro x hx
  exact h x (List.take_subset k r hx)

/-- Closed form of `decode`: with `T` the number of executed loop
iterations, every returned hypothesis is the `T`-step greedy rollout of
its own start token truncated to its recorded length
`y_lens[b] = 1 + takenLen`. -/
theorem decode_eq_rollout {σ : Type} (m : DecModel σ) (startTokens : List Nat)
    (maxDecodeLen : Nat) :
    decode m startTokens maxDecodeLen =
      startTokens.map (fun y =>
        (rollTok m m.s0 y (stepsUsed m startTokens maxDecodeLen)).take
          (1 + takenLen m.eos
            (rollTok m m.s0 y (stepsUsed m startTokens maxDecodeLen)))) := by
  unfold decode stepsUsed
  rw [decodeLoop_eq, map_iterate, List.map_map, List.map_map]
  refine List.map_congr_left ?_
  intro y _
  simp only [Function.comp_apply, initEx]
  rw [stepEx_iterate]
  simp [Nat.add_comm]

/-- The final flag of example `b` after the decode loop: set exactly when
its rollout over the executed steps contains the EOS id. -/
theorem decode_flag_eq {σ : Type} (m : DecModel σ) (startTokens : List Nat)
    (maxDecodeLen : Nat) (y : Nat) (hy : y ∈ startTokens) :
    (stepEx m)^[stepsUsed m startTokens maxDecodeLen] (initEx m y) ∈
      decodeLoop m maxDecodeLen (startTokens.map (initEx m)) ∧
    ((stepEx m)^[stepsUsed m startTokens maxDecodeLen] (initEx m y)).flag =
      (rollTok m m.s0 y (stepsUsed m startTokens maxDecodeLen)).any
        (fun z => z == m.eos) := by
  constructor
  · rw [decodeLoop_eq, map_iterate]
    exact List.mem_map_of_mem _ (List.mem_map_of_mem _ hy)
  · unfold initEx
    rw [stepEx_iterate]
    simp

/-- If some example's rollout over the full `maxDecodeLen` steps never
contains EOS, the loop cannot break early: it runs all `maxDecodeLen`
iterations. -/
theorem stepsUsed_eq_of_no_eos {σ : Type} (m : DecModel σ)
    (startTokens : List Nat) (maxDecodeLen : Nat) (y : Nat)
    (hy : y ∈ startTokens)
    (hno : (rollTok m m.s0 y maxDecodeLen).any (fun z => z == m.eos) = false) :
    stepsUsed m startTokens maxDecodeLen = maxDecodeLen := by
  set T := stepsUsed m startTokens maxDecodeLen with hT
  have hle : T ≤ maxDecodeLen := stepsUsedAux_le m maxDecodeLen _
  by_contra hne
  have hlt : T < maxDecodeLen := by omega
  have hall := decodeLoop_all_flag m maxDecodeLen (startTokens.map (initEx m)) hlt
  rw [List.all_eq_true] at hall
  obtain ⟨hmem, hflag⟩ := decode_flag_eq m startTokens maxDecodeLen y hy
  have := hall _ hmem
  rw [hflag] at this
  have hpre : rollTok m m.s0 y T = (rollTok m m.s0 y maxDecodeLen).take T := by
    rw [rollTok_take m T maxDecodeLen _ _ hle]
  rw [hpre, any_take_false _ _ _ hno] at this
  exact Bool.false_ne_true this

theorem getD_map_lt {α β : Type} (f : α → β) (l : List α) (b : Nat) (d : β)
    (d0 : α) (hb : b < l.length) : (l.map f).getD b d = f (l.getD b d0) := by
  rw [List.getD_eq_getElem _ _ (by simpa using hb),
    List.getD_eq_getElem _ _ hb, List.getElem_map]

theorem take_eq_take_own_length {α : Type} (l : List α) (k : Nat) :
    l.take k = l.take ((l.take k).length) := by
  rw [List.length_take]
  rcases Nat.le_total k l.length with h | h
  · rw [Nat.min_eq_left h]
  · rw [Nat.min_eq_right h, List.take_of_length_le h,
      List.take_of_length_le (Nat.le_refl _)]

/-! ### Claim theorems: decoding -/

/-- C2 (code bug): the claim says that if the greedily chosen token
equals EOS for the first time at step t, the returned hypothesis has
length exactly t and ends with EOS.  With the stub `mC2`
(EOS id 5, emitted right after start token 9, never after 7) and
`decode([9, 7], max_decode_len=2)`, example 0 meets EOS at step t = 1
(its rollout is `[5, 0]`, first token EOS), yet because example 1 keeps
the loop running the returned hypothesis for example 0 is `[5, 0]`:
length 2, not 1, and its last token is 0, not EOS.  The source intends
to truncate right after EOS (`# Truncate by <EOS>`, `# NOTE: include
<EOS>`), but `y_lens` starts at 1 and is incremented once more on the
EOS step, so the slice keeps one token past EOS whenever decoding
continues for other examples. -/
theorem c2_decode_eos_truncation_off_by_one :
    rollTok mC2 mC2.s0 9 2 = [5, 0] ∧
    decode mC2 [9, 7] 2 = [[5, 0], [0, 0]] ∧
    ¬(((decode mC2 [9, 7] 2).getD 0 []).length = 1 ∧
      ((decode mC2 [9, 7] 2).getD 0 []).getLast? = some 5) := by
  decide

/-- C5: no hypothesis returned by `decode` is longer than
`maxDecodeLen`, and an example whose greedy rollout never produces EOS
within `maxDecodeLen` steps receives a hypothesis of length exactly
`maxDecodeLen` containing no EOS (none is forced onto it).  The numpy
slice `_best_hyps[b, :y_lens[b]]` clamps at the number of executed
steps, which never exceeds `maxDecodeLen`. -/
theorem c5_decode_length_cap {σ : Type} (m : DecModel σ)
    (startTokens : List Nat) (maxDecodeLen : Nat) (b : Nat)
    (_hL : 1 ≤ maxDecodeLen) (hb : b < startTokens.length) :
    ((decode m startTokens maxDecodeLen).getD b []).length ≤ maxDecodeLen ∧
    ((rollTok m m.s0 (startTokens.getD b 0) maxDecodeLen).any
        (fun z => z == m.eos) = true ∨
      (((decode m startTokens maxDecodeLen).getD b []).length = maxDecodeLen ∧
       ((decode m startTokens maxDecodeLen).getD b []).any
         (fun z => z == m.eos) = false)) := by
  have hdec := decode_eq_rollout m startTokens maxDecodeLen
  have hTle : stepsUsed m startTokens maxDecodeLen ≤ maxDecodeLen :=
    stepsUsedAux_le m maxDecodeLen _
  have hget : (decode m startTokens maxDecodeLen).getD b [] =
      (rollTok m m.s0 (startTokens.getD b 0)
        (stepsUsed m startTokens maxDecodeLen)).take
        (1 + takenLen m.eos (rollTok m m.s0 (startTokens.getD b 0)
          (stepsUsed m startTokens maxDecodeLen))) := by
    rw [hdec]
    exact getD_map_lt _ _ b [] 0 hb
  constructor
  · rw [hget, List.length_take, rollTok_length]
    exact le_trans (Nat.min_le_right _ _) hTle
  · by_cases hany : (rollTok m m.s0 (startTokens.getD b 0) maxDecodeLen).any
        (fun z => z == m.eos) = true
    · exact Or.inl hany
    · right
      have hno : (rollTok m m.s0 (startTokens.getD b 0) maxDecodeLen).any
          (fun z => z == m.eos) = false := by
        cases h2 : (rollTok m m.s0 (startTokens.getD b 0) maxDecodeLen).any
            (fun z => z == m.eos) with
        | false => rfl
        | true => exact absurd h2 hany
      have hmem : startTokens.getD b 0 ∈ startTokens := by
        rw [List.getD_eq_getElem _ _ hb]
        exact List.getElem_mem hb
      have hTeq : stepsUsed m startTokens maxDecodeLen = maxDecodeLen :=
        stepsUsed_eq_of_no_eos m startTokens maxDecodeLen _ hmem hno
      have htk : takenLen m.eos
          (rollTok m m.s0 (startTokens.getD b 0) maxDecodeLen) = maxDecodeLen := by
        rw [takenLen_of_not_any _ _ hno, rollTok_length]
      constructor
      · rw [hget, hTeq, List.length_take, htk, rollTok_length]
        omega
      · rw [hget, hTeq]
        exact any_take_false _ _ _ hno

/-- C5 witness: `decode(mC2, [9, 7], 2)`, example 1 starting from token 7
never emits EOS; its hypothesis has length exactly 2 and contains no
EOS. -/
theorem c5_decode_length_cap_witness :
    ((decode mC2 [9, 7] 2).getD 1 []).length ≤ 2 ∧
    ((rollTok mC2 mC2.s0 ([9, 7].getD 1 0) 2).any
        (fun z => z == mC2.eos) = true ∨
      (((decode mC2 [9, 7] 2).getD 1 []).length = 2 ∧
       ((decode mC2 [9, 7] 2).getD 1 []).any (fun z => z == mC2.eos) = false)) :=
  c5_decode_length_cap mC2 [9, 7] 2 1 (by decide) (by decide)

/-- C6 corrected (counterexample): the claim states that
`decode(startTokens, maxDecodeLen)` returns a pair of results -
hypotheses and recorded lengths.  The source's `return best_hyps`
returns the bare hypothesis list: at the spec's own scenario input
(`decode([5], 3)` against the always-EOS stub) the returned Python value
is the list `[[5]]`, not a 2-tuple, and no lengths component exists
(the docstring's promised second value `perm_idx` is not returned
either). -/
theorem c6_decode_returns_bare_list_cex :
    isPairShape (decodeReturnValue mEos [5] 3) = false ∧
    decodeReturnValue mEos [5] 3 =
      PyVal.pylist [PyVal.pylist [PyVal.pynat 5]] :=
  ⟨rfl, rfl⟩

/-- C6 amended: `decode` returns a single result, the list of
per-example hypotheses, where the hypothesis of example b is row b of
the concatenated chosen-token matrix (the greedy rollout of
`startTokens[b]` over the `T` executed iterations, `1 ≤ T ≤
maxDecodeLen`) sliced to its recorded length `y_lens[b] = 1 +
takenLen` (one count per step up to and including the first EOS). -/
theorem c6_decode_hypotheses_slices {σ : Type} (m : DecModel σ)
    (startTokens : List Nat) (maxDecodeLen : Nat) (hL : 1 ≤ maxDecodeLen) :
    isPairShape (decodeReturnValue m startTokens maxDecodeLen) = false ∧
    decode m startTokens maxDecodeLen =
      startTokens.map (fun y =>
        (rollTok m m.s0 y (stepsUsed m startTokens maxDecodeLen)).take
          (1 + takenLen m.eos
            (rollTok m m.s0 y (stepsUsed m startTokens maxDecodeLen)))) ∧
    1 ≤ stepsUsed m startTokens maxDecodeLen ∧
    stepsUsed m startTokens maxDecodeLen ≤ maxDecodeLen :=
  ⟨rfl, decode_eq_rollout m startTokens maxDecodeLen,
   stepsUsedAux_pos m maxDecodeLen _ hL, stepsUsedAux_le m maxDecodeLen _⟩

/-- C6 witness at the spec scenario `decode([5], 3)`. -/
theorem c6_decode_hypotheses_slices_witness :
    isPairShape (decodeReturnValue mEos [5] 3) = false ∧
    decode mEos [5] 3 =
      [5].map (fun y =>
        (rollTok mEos mEos.s0 y (stepsUsed mEos [5] 3)).take
          (1 + takenLen mEos.eos (rollTok mEos mEos.s0 y (stepsUsed mEos [5] 3)))) ∧
    1 ≤ stepsUsed mEos [5] 3 ∧
    stepsUsed mEos [5] 3 ≤ 3 :=
  c6_decode_hypotheses_slices mEos [5] 3 (by decide)

/-- C9: `decode` applies no permutation to its batch (unlike
`RNNLM.forward`, which length-sorts): it returns exactly one hypothesis
per start token, in order, and the hypothesis at index b is a prefix of
the greedy rollout generated from `startTokens[b]` itself. -/
theorem c9_decode_preserves_batch_order {σ : Type} (m : DecModel σ)
    (startTokens : List Nat) (maxDecodeLen : Nat) (b : Nat)
    (_hL : 1 ≤ maxDecodeLen) (hb : b < startTokens.length) :
    (decode m startTokens maxDecodeLen).length = startTokens.length ∧
    (decode m startTokens maxDecodeLen).getD b [] =
      (rollTok m m.s0 (startTokens.getD b 0) maxDecodeLen).take
        (((decode m startTokens maxDecodeLen).getD b []).length) := by
  have hdec := decode_eq_rollout m startTokens maxDecodeLen
  have hTle : stepsUsed m startTokens maxDecodeLen ≤ maxDecodeLen :=
    stepsUsedAux_le m maxDecodeLen _
  have hget : (decode m startTokens maxDecodeLen).getD b [] =
      (rollTok m m.s0 (startTokens.getD b 0)
        (stepsUsed m startTokens maxDecodeLen)).take
        (1 + takenLen m.eos (rollTok m m.s0 (startTokens.getD b 0)
          (stepsUsed m startTokens maxDecodeLen))) := by
    rw [hdec]
    exact getD_map_lt _ _ b [] 0 hb
  constructor
  · rw [hdec, List.length_map]
  · rw [hget,
      ← rollTok_take m (stepsUsed m startTokens maxDecodeLen) maxDecodeLen
        m.s0 (startTokens.getD b 0) hTle,
      List.take_take]
    exact take_eq_take_own_length _ _

/-- C9 witness at `decode(mC2, [9, 7], 2)`, example 0. -/
theorem c9_decode_preserves_batch_order_witness :
    (decode mC2 [9, 7] 2).length = [9, 7].length ∧
    (decode mC2 [9, 7] 2).getD 0 [] =
      (rollTok mC2 mC2.s0 ([9, 7].getD 0 0) 2).take
        (((decode mC2 [9, 7] 2).getD 0 []).length) :=
  c9_decode_preserves_batch_order mC2 [9, 7] 2 0 (by decide) (by decide)

/-! ### Claim theorems: training-step executor -/

/-- C1 (code bug): the claim - and the spec's stated design requirement -
says that a call with `is_eval=True` mutates no parameters for every
backend.  The pytorch backend honours this, but the chainer backend's
branches are swapped: with `is_eval=True` it clears gradients, runs
forward and backward, and calls `optimizer.update()`.  On the concrete
model `mUpd` (params 0, backward gradient 7, update step adding the
gradient) the chainer evaluation call changes the parameters from 0
to 7, while the identical pytorch evaluation call leaves them at 0. -/
theorem c1_chainer_eval_mutates_params :
    mUpd.params = 0 ∧
    (updaterCall 5 Backend.pytorch mUpd () true).1.params = 0 ∧
    (updaterCall 5 Backend.chainer mUpd () true).1.params = 7 ∧
    (updaterCall 5 Backend.chainer mUpd () true).2 = LossV.fin 1 := by
  decide

/-- C4: whenever the try body of `Updater.__call__` raises a
RuntimeError - at forward, backward, clipping or the optimizer step -
the executor catches it, clears the accumulated gradients, leaves the
previously-committed parameters untouched, and returns loss 0 for the
batch instead of propagating the failure. -/
theorem c4_updater_error_containment {P G B : Type} (clipGradNorm : ℚ)
    (backend : Backend) (model : UpModel P G B) (batch : B) (isEval : Bool)
    (herr : updaterTry clipGradNorm backend model batch isEval =
      Except.error ()) :
    (updaterCall clipGradNorm backend model batch isEval).1.params =
      model.params ∧
    (updaterCall clipGradNorm backend model batch isEval).1.grads =
      model.zeroG ∧
    (updaterCall clipGradNorm backend model batch isEval).2 = LossV.fin 0 := by
  unfold updaterCall
  rw [herr]
  exact ⟨rfl, rfl, rfl⟩

/-- C4 witness: the spec's scenario - a model stub whose forward pass
raises - on the pytorch training path. -/
theorem c4_updater_error_containment_witness :
    (updaterCall 1 Backend.pytorch mRaise () false).1.params =
      mRaise.params ∧
    (updaterCall 1 Backend.pytorch mRaise () false).1.grads =
      mRaise.zeroG ∧
    (updaterCall 1 Backend.pytorch mRaise () false).2 = LossV.fin 0 :=
  c4_updater_error_containment 1 Backend.pytorch mRaise () false rfl

/-! ### Claim theorems: RNNLM construction -/

/-- C7 corrected (counterexample): the claim says that with weight tying
selected and `num_units ≠ embedding_dim`, construction fails with a
validation message about the dimension mismatch.  On `cfgC7`
(tying on, num_units 4 ≠ embedding_dim 8) construction raises
NotImplementedError, not the dimension ValueError: the dimension check
sits after `raise NotImplementedError` inside the `if tie_weights:`
block and is unreachable. -/
theorem c7_tie_weights_dim_check_unreachable_cex :
    cfgC7.tie_weights = true ∧
    cfgC7.num_units ≠ cfgC7.embedding_dim ∧
    rnnlmInit cfgC7 = Except.error InitError.notImplementedTieWeights ∧
    rnnlmInit cfgC7 ≠ Except.error InitError.valueErrorTieDims := by
  decide

/-- C7 amended: selecting weight tying (with a recognised recurrent cell
type) always fails construction with NotImplementedError - the option is
never silently ignored - and the dimension-mismatch ValueError after the
raise is dead code, so no dimension validation ever runs. -/
theorem c7_tie_weights_always_not_implemented (c : RNNLMConfig)
    (hty : c.rnn_type = "lstm" ∨ c.rnn_type = "gru" ∨ c.rnn_type = "rnn")
    (htie : c.tie_weights = true) :
    rnnlmInit c = Except.error InitError.notImplementedTieWeights := by
  unfold rnnlmInit
  rw [if_pos hty, htie]
  simp

/-- C7 witness at `cfgC7`. -/
theorem c7_tie_weights_always_not_implemented_witness :
    rnnlmInit cfgC7 = Except.error InitError.notImplementedTieWeights :=
  c7_tie_weights_always_not_implemented cfgC7 (Or.inl rfl) rfl

/-! ### Claim theorems: character evaluator -/

/-- C10: with `task_index` unbound (its assignment is commented out),
the word-statistics condition of `eval_char` evaluates to True only when
the dataset's label type contains 'character' and not 'nowb'; for every
other label type Python's short-circuit `or` reaches the reference to
`task_index` and raises NameError.  Word-level aggregation is therefore
only reachable through the character-label branch. -/
theorem c10_eval_char_name_error (label_type label_type_sub : String) :
    evalCharWordCond label_type label_type_sub =
      (if pyIn charLabel label_type && !(pyIn nowbLabel label_type) then
        Except.ok true
      else
        Except.error PyExcept.nameError) := by
  unfold evalCharWordCond wordCondEval taskIndexVar
  rfl

/-! ### Lemmas about batch preparation and the loss sum -/

theorem idxFrom_length {α : Type} :
    ∀ (n : Nat) (l : List α), (idxFrom n l).length = l.length
  | _, [] => rfl
  | n, _ :: l => by simp [idxFrom, idxFrom_length (n + 1) l]

theorem idxFrom_append {α : Type} :
    ∀ (n : Nat) (a b : List α),
    idxFrom n (a ++ b) = idxFrom n a ++ idxFrom (n + a.length) b
  | n, [], b => by simp [idxFrom]
  | n, x :: a, b => by
    have h : n + 1 + a.length = n + (a.length + 1) := by omega
    show (n, x) :: idxFrom (n + 1) (a ++ b) =
      (n, x) :: (idxFrom (n + 1) a ++ idxFrom (n + (a.length + 1)) b)
    rw [idxFrom_append (n + 1) a b, h]

theorem idxFrom_map {α β : Type} (f : α → β) :
    ∀ (n : Nat) (l : List α),
    idxFrom n (l.map f) = (idxFrom n l).map (fun p => (p.1, f p.2))
  | _, [] => rfl
  | n, x :: l => by simp [idxFrom, idxFrom_map f (n + 1) l]

theorem idxFrom_map_fst {α β : Type} (f : Nat → β) :
    ∀ (n : Nat) (l : List α),
    (idxFrom n l).map (fun p => f p.1) =
      (List.range l.length).map (fun t => f (n + t))
  | n, [] => by simp [idxFrom]
  | n, x :: l => by
    simp only [idxFrom, List.map_cons, List.length_cons,
      List.range_succ_eq_map, List.map_map]
    rw [idxFrom_map_fst f (n + 1) l]
    congr 1
    refine List.map_congr_left ?_
    intro t _
    simp only [Function.comp_apply]
    congr 1
    omega

theorem idxFrom_mem_snd {α : Type} :
    ∀ (n : Nat) (l : List α) (p : Nat × α), p ∈ idxFrom n l → p.2 ∈ l
  | _, [], _, h => absurd h (by simp [idxFrom])
  | n, x :: l, p, h => by
    simp only [idxFrom, List.mem_cons] at h ⊢
    rcases h with h | h
    · left
      rw [h]
    · right
      exact idxFrom_mem_snd (n + 1) l p h

/-- Generic description of `pad_list` applied to a mapped batch: every
row is right-padded to the batch maximum of the row lengths. -/
theorem pad_list_map_eq {α : Type} (l : List (List Nat)) (f : List Nat → List α)
    (padv : α) (n : List Nat → Nat) (hf : ∀ y, (f y).length = n y) :
    pad_list (l.map f) padv =
      l.map (fun y =>
        f y ++ List.replicate ((l.map n).foldr max 0 - n y) padv) := by
  unfold pad_list
  simp only [List.map_map]
  have h1 : (List.length ∘ f) = n := funext hf
  rw [h1]
  refine List.map_congr_left ?_
  intro y _
  simp only [Function.comp_apply]
  rw [hf]

/-- Structure of `ys_in`: each sorted sequence is SOS-prefixed and
padded with the EOS id to the batch width `l_max`. -/
theorem ys_in_struct (sos eos : Nat) (ys : List (List Nat)) :
    ys_in_list sos eos ys =
      (ysSorted ys).map (fun y =>
        (sos :: y) ++ List.replicate (l_max ys - (y.length + 1)) eos) := by
  unfold ys_in_list
  rw [pad_list_map_eq (ysSorted ys) _ eos (fun y => y.length + 1)
    (fun y => by simp)]
  rfl

/-- Structure of `ys_out`: each sorted sequence is EOS-suffixed and
padded with the ignore marker `-1` to the batch width `l_max`. -/
theorem ys_out_struct (eos : Nat) (ys : List (List Nat)) :
    ys_out_list eos ys =
      (ysSorted ys).map (fun y =>
        (y.map Int.ofNat ++ [Int.ofNat eos]) ++
          List.replicate (l_max ys - (y.length + 1)) (-1)) := by
  unfold ys_out_list
  rw [pad_list_map_eq (ysSorted ys) _ (-1) (fun y => y.length + 1)
    (fun y => by rw [List.length_append, List.length_map]; rfl)]
  rfl

theorem idxFrom_replicate_pad_sum (g : Nat → ℚ) :
    ∀ (k n : Nat),
    ((idxFrom n (List.replicate k (-1 : Int))).map
      (fun tv => if tv.2 = -1 then 0 else g tv.1)).sum = 0
  | 0, _ => rfl
  | k + 1, n => by
    simp [List.replicate_succ, idxFrom, idxFrom_replicate_pad_sum g k (n + 1)]

/-- No entry of the sentinel-suffixed (pre-padding) target row equals
the ignore marker: token ids and the EOS id are natural-number casts. -/
theorem row_real_sum (g : Nat → ℚ) (eos : Nat) (y : List Nat) (n : Nat) :
    ((idxFrom n (y.map Int.ofNat ++ [Int.ofNat eos])).map
      (fun tv => if tv.2 = -1 then 0 else g tv.1)).sum =
    ((idxFrom n (y.map Int.ofNat ++ [Int.ofNat eos])).map
      (fun tv => g tv.1)).sum := by
  refine congrArg List.sum (List.map_congr_left ?_)
  intro p hp
  have hmem := idxFrom_mem_snd _ _ p hp
  have hne : ¬ p.2 = -1 := by
    intro heq
    rcases List.mem_append.mp hmem with h | h
    · rcases List.mem_map.mp h with ⟨t, _, ht⟩
      rw [heq, Int.ofNat_eq_natCast] at ht
      omega
    · rw [List.mem_singleton] at h
      rw [h, Int.ofNat_eq_natCast] at heq
      omega
  rw [if_neg hne]

/-- The masked cross-entropy contribution of one padded target row is
the sum of the per-position values over exactly its true length. -/
theorem row_ce_sum (g : Nat → ℚ) (eos : Nat) (y : List Nat) (k : Nat) :
    ((idxFrom 0 ((y.map Int.ofNat ++ [Int.ofNat eos]) ++
        List.replicate k (-1 : Int))).map
      (fun tv => if tv.2 = -1 then 0 else g tv.1)).sum =
    ((List.range (y.length + 1)).map g).sum := by
  rw [idxFrom_append, List.map_append, List.sum_append,
    idxFrom_replicate_pad_sum, row_real_sum, idxFrom_map_fst, add_zero]
  have hlen : (y.map Int.ofNat ++ [Int.ofNat eos]).length =
      y.length + 1 := by
    rw [List.length_append, List.length_map]
    rfl
  rw [hlen]
  refine congrArg List.sum (List.map_congr_left ?_)
  intro t _
  rw [Nat.zero_add]

/-! ### Claim theorems: batch preparation and loss -/

/-- C3: the batch preparation inside `RNNLM.forward` sorts the examples
by descending original length with ties in input order (the sorted
index-sequence pairs are a permutation of the enumerated input and
pairwise ordered by `permRel` - strictly longer first, equal lengths by
original index; over the distinct indices this pins the unique stable
descending order), records true length `|seq| + 1` for every example,
and produces `ys_in[b] = [SOS] + seq[b]` padded with the EOS id and
`ys_out[b] = seq[b] + [EOS]` padded with the ignore marker `-1`, both to
the batch width `l_max`.  In particular for vocabulary size 5 and input
`[2, 3]` (SOS = EOS = 5): `ys_in = [5, 2, 3]`, `ys_out = [2, 3, 5]`,
true length 3. -/
theorem c3_batch_prep_sorted_padded (sos eos : Nat) (ys : List (List Nat)) :
    List.Pairwise permRel (sortedEnum ys) ∧
    (sortedEnum ys).Perm (idxFrom 0 ys) ∧
    y_lens ys = (ysSorted ys).map (fun y => y.length + 1) ∧
    ys_in_list sos eos ys =
      (ysSorted ys).map (fun y =>
        (sos :: y) ++ List.replicate (l_max ys - (y.length + 1)) eos) ∧
    ys_out_list eos ys =
      (ysSorted ys).map (fun y =>
        (y.map Int.ofNat ++ [Int.ofNat eos]) ++
          List.replicate (l_max ys - (y.length + 1)) (-1)) :=
  ⟨List.sorted_insertionSort permRel _, List.perm_insertionSort permRel _,
   rfl, ys_in_struct sos eos ys, ys_out_struct eos ys⟩

/-- C8: the training loss equals the cross-entropy summed over exactly
the real (non-padding) positions - position (b, t) contributes for
t < len[b], i.e. precisely where the target differs from the ignore
marker - divided by `batch_size * l_max`, the padded extent, not by the
number of real tokens.  (For the batch `[[2, 3], [1]]` the denominator
is 2 * 3 = 6 while only 5 real target positions exist.) -/
theorem c8_loss_normalized_by_padded_extent (ce : Nat → Nat → ℚ) (eos : Nat)
    (ys : List (List Nat)) :
    trainingLoss ce eos ys =
      ((idxFrom 0 (y_lens ys)).map
        (fun bn => ((List.range bn.2).map (fun t => ce bn.1 t)).sum)).sum /
      ((ys.length : ℚ) * (l_max ys : ℚ)) := by
  unfold trainingLoss
  have hB : (ys_out_list eos ys).length = ys.length := by
    rw [ys_out_struct, List.length_map]
    unfold ysSorted sortedEnum
    rw [List.length_map, List.length_insertionSort, idxFrom_length]
  rw [hB]
  congr 1
  unfold ceSum
  rw [ys_out_struct, idxFrom_map, List.map_map]
  have hyl : y_lens ys = (ysSorted ys).map (fun y => y.length + 1) := rfl
  rw [hyl, idxFrom_map, List.map_map]
  refine congrArg List.sum (List.map_congr_left ?_)
  intro p _
  simp only [Function.comp_apply]
  exact row_ce_sum (ce p.1) eos p.2 _

/-! ### Concrete scenario checks from the spec -/

/-- Scenario: vocabulary size 5 (SOS = EOS = 5), one input sequence
`[2, 3]` gives `ys_in = [5, 2, 3]`, `ys_out = [2, 3, 5]`, true
length 3. -/
theorem scenario_batch_prep :
    ys_in_list 5 5 [[2, 3]] = [[5, 2, 3]] ∧
    ys_out_list 5 [[2, 3]] = [[2, 3, 5]] ∧
    y_lens [[2, 3]] = [3] := by
  decide

/-- Scenario: `decode([5], 3)` against a stub that always outputs the
EOS id 5 returns the single hypothesis `[5]`, and the loop stops after
one iteration (early termination). -/
theorem scenario_decode_immediate_eos :
    decode mEos [5] 3 = [[5]] ∧ stepsUsed mEos [5] 3 = 1 := by
  decide

/-- Scenario: a batch with lengths {4, 1, 2} is processed in order
{4, 2, 1}, and the recorded permutation maps back to the original
example identities. -/
theorem scenario_sort_order :
    perm_idx [[1, 1, 1, 1], [2], [3, 3]] = [0, 2, 1] ∧
    (ysSorted [[1, 1, 1, 1], [2], [3, 3]]).map List.length = [4, 2, 1] := by
  decide

end NeuralSp
